import Mathlib

set_option maxHeartbeats 1600000

/-
  Verification development for the Unithree engine core
  (packages/library/src/index.ts, packages/core/src/Entity.ts,
   packages/library/src/core/ProcessorPlugin.ts, and the earlier
   revision packages/library/src/core/UnithreeState.ts).

  The per-frame scheduler, the live-entity table, the plugin table and
  the entity lifecycle flags are embedded shallowly: entity uuids are
  modelled as naturals, the scene graph as a rose tree, JS `Map`s as
  association lists in insertion order, and lifecycle callbacks as
  small scripts of flag-mutating actions (the only entity state the
  engine itself reads back).
-/

namespace Unithree

/-- Lifecycle flags of an `Entity` (packages/core/src/Entity.ts):
`isEnabled`, `didStart`, `_isDead`. -/
structure EFlags where
  enabled : Bool
  didStart : Bool
  isDead : Bool
deriving DecidableEq, Repr

/-- `Entity.destroy()` sets `_isDead = true` (Entity.ts lines 96-101). -/
def destroyFlag (s : EFlags) : EFlags :=
  { s with isDead := true }

/-- An action a user lifecycle callback can take that the engine can
observe: destroy an entity (`entity.destroy()`) or toggle an entity's
`enabled` flag. `didStart` is written only by the scheduler. -/
inductive Act : Type where
  | destroyAct (target : Nat)
  | setEnabledAct (target : Nat) (b : Bool)
deriving DecidableEq, Repr

/-- The user-overridable callbacks of an entity, as scripts of actions
(`onStart`, `onUpdate`, `onLateUpdate`). -/
structure EntDef where
  onStartActs : List Act
  onUpdateActs : List Act
  onLateUpdateActs : List Act
deriving DecidableEq, Repr

/-- The entity with no overridden behaviour. -/
def EntDef.empty : EntDef := ⟨[], [], []⟩

/-- Point update of the flag heap (entity objects are mutated in place
in JS; the heap is a function from uuid to flags). -/
def setFlags (fl : Nat → EFlags) (u : Nat) (s : EFlags) : Nat → EFlags :=
  fun v => if v = u then s else fl v

/-- Run one callback action against the flag heap. -/
def runAct (fl : Nat → EFlags) : Act → (Nat → EFlags)
  | .destroyAct t => setFlags fl t (destroyFlag (fl t))
  | .setEnabledAct t b => setFlags fl t { fl t with enabled := b }

/-- Run a whole callback script. -/
def runActs (fl : Nat → EFlags) (acts : List Act) : Nat → EFlags :=
  acts.foldl runAct fl

/-- A node of the three.js scene graph: its uuid, its `name`, whether
it is an `instanceof Entity`, and its children. -/
inductive Obj : Type where
  | node (uuid : Nat) (objName : String) (isEntity : Bool) (children : List Obj)

def Obj.uuid : Obj → Nat
  | .node u _ _ _ => u

def Obj.objName : Obj → String
  | .node _ n _ _ => n

def Obj.isEntity : Obj → Bool
  | .node _ _ e _ => e

def Obj.children : Obj → List Obj
  | .node _ _ _ cs => cs

mutual

/-- `Object3D.traverse` visits the object itself and then every
descendant; we return the visited objects in order. -/
def Obj.traverseList : Obj → List Obj
  | .node u n e cs => .node u n e cs :: traverseListAll cs

def traverseListAll : List Obj → List Obj
  | [] => []
  | c :: cs => c.traverseList ++ traverseListAll cs

end

mutual

/-- `removeFromParent()` for the node with the given uuid: drop that
node (with its whole subtree) wherever it hangs in the forest. -/
def Obj.removeNode (u : Nat) : Obj → Obj
  | .node v n e cs => .node v n e (removeNodeAll u cs)

def removeNodeAll (u : Nat) : List Obj → List Obj
  | [] => []
  | c :: cs =>
    if c.uuid = u then removeNodeAll u cs
    else c.removeNode u :: removeNodeAll u cs

end

/-- All objects of the scene forest, in depth-first preorder. -/
def allObjs (roots : List Obj) : List Obj :=
  traverseListAll roots

/-- Look up the object reference with the given uuid in the scene. -/
def findObj (roots : List Obj) (u : Nat) : Option Obj :=
  (allObjs roots).find? (fun o => o.uuid == u)

/-- `ExecutionType` of ProcessorPlugin.ts (current revision):
`InitializeOnly` and `Always`.  index.ts never consults it. -/
inductive ExecType : Type where
  | initOnlyT
  | alwaysT
deriving DecidableEq, Repr

/-- A `ProcessorPlugin` (ProcessorPlugin.ts): `executionType`,
`enabled`, and the `initialized` flag (field `initDone` here). -/
structure Plugin where
  executionType : ExecType
  enabled : Bool
  initDone : Bool
deriving DecidableEq, Repr

/-- Observable events of one scheduler tick, in emission order:
plugin `initialize`, entity `onStart`, the render call or the
`console.error('Renderer and/or camera are not initialized')`
diagnostic, plugin `update`, entity `onUpdate`, entity `onLateUpdate`,
plugin `lateUpdate`. -/
inductive Ev : Type where
  | pluginInit (typeName : String)
  | entStart (u : Nat)
  | render
  | renderError
  | pluginUpdate (typeName : String)
  | entUpdate (u : Nat)
  | entLateUpdate (u : Nat)
  | pluginLateUpdate (typeName : String)
deriving DecidableEq, Repr

/-- The module-level state of index.ts: the scene (`scene.children`),
the live-entity table `entities : Map<string, Entity>` (its keys in
insertion order; values live in the flag heap), the flag heap, the
static entity behaviours, `_camera`/`_renderer` presence, and the
plugin table `_plugins : Map<string, ProcessorPlugin>`. -/
structure World where
  roots : List Obj
  table : List Nat
  flags : Nat → EFlags
  defs : Nat → EntDef
  camera : Bool
  renderer : Bool
  plugins : List (String × Plugin)

/-- One step of the plugin init pass (index.ts lines 34-38): if
`plugin.enabled && !plugin.initialized`, call `initialize()` and set
the flag. -/
def pluginInitStep (acc : List (String × Plugin) × List Ev)
    (p : String × Plugin) : List (String × Plugin) × List Ev :=
  if p.2.enabled && !p.2.initDone then
    (acc.1 ++ [(p.1, { p.2 with initDone := true })],
     acc.2 ++ [.pluginInit p.1])
  else (acc.1 ++ [p], acc.2)

/-- Plugin init pass (index.ts lines 33-39) over the plugin table. -/
def pluginInitPass (ps : List (String × Plugin)) :
    List (String × Plugin) × List Ev :=
  ps.foldl pluginInitStep ([], [])

/-- Accumulator of the start / reap-detection pass. -/
structure StartRes where
  flags : Nat → EFlags
  toDelete : List Nat
  trace : List Ev

/-- One step of the start / reap-detection pass (index.ts lines
43-52): if `entity.enabled && !entity.didStart`, call `onStart` and
then set `didStart = true`; afterwards, if `entity.isDead`, push the
entity onto `toDelete`. -/
def startStep (defs : Nat → EntDef) (acc : StartRes) (u : Nat) : StartRes :=
  let s := acc.flags u
  let fl :=
    if s.enabled && !s.didStart then
      let fl1 := runActs acc.flags (defs u).onStartActs
      setFlags fl1 u { fl1 u with didStart := true }
    else acc.flags
  let tr :=
    if s.enabled && !s.didStart then acc.trace ++ [.entStart u]
    else acc.trace
  let td := if (fl u).isDead then acc.toDelete ++ [u] else acc.toDelete
  { flags := fl, toDelete := td, trace := tr }

/-- The start / reap-detection pass over the live-entity table. -/
def startPass (defs : Nat → EntDef) (table : List Nat)
    (fl : Nat → EFlags) : StartRes :=
  table.foldl (startStep defs) ⟨fl, [], []⟩

/-- `entities.delete(uuid)` on the table keys. -/
def deleteId (table : List Nat) (u : Nat) : List Nat :=
  table.filter (fun v => v ≠ u)

/-- The uuids removed for one dead entity (index.ts lines 56-61):
`[entity.uuid]` followed by the uuid of every `instanceof Entity`
object found by `entity.traverse` (which revisits the entity itself).
The entity reference held in `toDelete` keeps its subtree even after
earlier `removeFromParent` calls, so the subtree is looked up in the
pre-reap scene `roots0`; `instantiateObject` put every live entity
there. -/
def removeIdsFor (roots0 : List Obj) (u : Nat) : List Nat :=
  u ::
    (match findObj roots0 u with
     | some o => ((o.traverseList).filter Obj.isEntity).map Obj.uuid
     | none => [])

/-- Reap one dead entity (index.ts lines 54-65): `removeFromParent()`,
collect the remove ids, and delete each one from the table. -/
def reapOne (roots0 : List Obj) (st : List Obj × List Nat) (u : Nat) :
    List Obj × List Nat :=
  (removeNodeAll u st.1, (removeIdsFor roots0 u).foldl deleteId st.2)

/-- The reap pass over the collected `toDelete` list. -/
def reapPass (roots : List Obj) (table : List Nat) (toDelete : List Nat) :
    List Obj × List Nat :=
  toDelete.foldl (reapOne roots) (roots, table)

/-- Render pass (index.ts lines 67-71): render when both `_camera` and
`_renderer` are set, otherwise emit the `console.error` diagnostic. -/
def renderPass (camera renderer : Bool) : List Ev :=
  if camera && renderer then [.render] else [.renderError]

/-- Plugin update pass (index.ts lines 73-76): `plugin.update` is
called on every plugin, with no guard. -/
def pluginUpdatePass (ps : List (String × Plugin)) : List Ev :=
  ps.map (fun p => .pluginUpdate p.1)

/-- One step of an entity update pass (index.ts lines 79-88): if
`entity.enabled && !entity.isDead`, deliver the callback. `sel`
selects the script, `evc` the event constructor of the pass. -/
def entityStep (defs : Nat → EntDef) (sel : EntDef → List Act)
    (evc : Nat → Ev) (acc : (Nat → EFlags) × List Ev) (u : Nat) :
    (Nat → EFlags) × List Ev :=
  let s := acc.1 u
  if s.enabled && !s.isDead then
    (runActs acc.1 (sel (defs u)), acc.2 ++ [evc u])
  else acc

/-- An entity update pass over the (post-reap) table. -/
def entityPass (defs : Nat → EntDef) (sel : EntDef → List Act)
    (evc : Nat → Ev) (table : List Nat) (fl : Nat → EFlags) :
    (Nat → EFlags) × List Ev :=
  table.foldl (entityStep defs sel evc) (fl, [])

/-- Plugin late-update pass (index.ts lines 91-93): `lateUpdate` on
every plugin, with no guard. -/
def pluginLatePass (ps : List (String × Plugin)) : List Ev :=
  ps.map (fun p => .pluginLateUpdate p.1)

/-- Result of one tick: the new world and the events emitted. -/
structure TickRes where
  world : World
  trace : List Ev

/-- One tick of `animationLoop` (index.ts lines 29-94), minus the
`requestAnimationFrame` re-arm and the clock sample: plugin init,
entity start / reap detection, reap, render, plugin update, entity
update, entity late-update, plugin late-update. The update passes
iterate the `entities` map after the reap deleted from it. -/
def runTick (w : World) : TickRes :=
  let pi := pluginInitPass w.plugins
  let sr := startPass w.defs w.table w.flags
  let rp := reapPass w.roots w.table sr.toDelete
  let evRender := renderPass w.camera w.renderer
  let evPU := pluginUpdatePass pi.1
  let up := entityPass w.defs EntDef.onUpdateActs Ev.entUpdate rp.2 sr.flags
  let lu := entityPass w.defs EntDef.onLateUpdateActs Ev.entLateUpdate rp.2 up.1
  let evPL := pluginLatePass pi.1
  { world :=
      { w with
        roots := rp.1
        table := rp.2
        flags := lu.1
        plugins := pi.1 }
    trace := pi.2 ++ sr.trace ++ evRender ++ evPU ++ up.2 ++ lu.2 ++ evPL }

/-- Run `n` consecutive ticks, concatenating the traces. -/
def runTicks : Nat → World → World × List Ev
  | 0, w => (w, [])
  | n + 1, w =>
    let r := runTick w
    let rest := runTicks n r.world
    (rest.1, r.trace ++ rest.2)

/-- `Map.set` of a JS `Map`: replace the value of an existing key in
place, otherwise append at the end (insertion order). -/
def mapSet (ps : List (String × Plugin)) (k : String) (v : Plugin) :
    List (String × Plugin) :=
  if ps.any (fun p => p.1 == k) then
    ps.map (fun p => if p.1 == k then (k, v) else p)
  else ps ++ [(k, v)]

/-- `addPlugins` (index.ts lines 100-104): every plugin is inserted
into `_plugins` keyed by `plugin.constructor.name`, regardless of its
`executionType`. The argument list pairs each plugin with its
constructor name. -/
def addPlugins (ps : List (String × Plugin))
    (newPlugins : List (String × Plugin)) : List (String × Plugin) :=
  newPlugins.foldl (fun acc p => mapSet acc p.1 p.2) ps

/-- `getPluginByTypeName` (index.ts lines 124-126):
`_plugins.get(typeName) ?? null`. -/
def getPluginByTypeName (ps : List (String × Plugin)) (typeName : String) :
    Option Plugin :=
  (ps.find? (fun p => p.1 == typeName)).map Prod.snd

/-- `scene.getObjectByName(name)`: first object in depth-first
preorder whose `name` matches. -/
def getObjectByName (roots : List Obj) (n : String) : Option Obj :=
  (allObjs roots).find? (fun o => o.objName == n)

/-- `findObjectByName` (index.ts lines 208-211): `if (!name) return
null` (the empty string is falsy), else search the scene. -/
def findObjectByName (roots : List Obj) (n : String) : Option Obj :=
  if n == "" then none else getObjectByName roots n

/-- `findObjectsByName` (index.ts lines 219-222): `if (!name) return
null`, else `scene.getObjectsByProperty('name', name)`. -/
def findObjectsByName (roots : List Obj) (n : String) : Option (List Obj) :=
  if n == "" then none
  else some ((allObjs roots).filter (fun o => o.objName == n))

/-- `let animationLoopId: number | null`: it starts out `undefined`,
`stop` writes `null`, `requestAnimationFrame` ids are positive. -/
inductive LoopId : Type where
  | undef
  | nullId
  | someId (n : Nat)
deriving DecidableEq, Repr

/-- JS truthiness of `animationLoopId` (`if (animationLoopId)`). -/
def LoopId.truthy : LoopId → Bool
  | .undef => false
  | .nullId => false
  | .someId n => n != 0

/-- `animationLoopId !== null` (the check in `stop`). -/
def LoopId.notNull : LoopId → Bool
  | .undef => true
  | .nullId => false
  | .someId _ => true

/-- The warnings `start` / `stop` can log via `console.warn`. -/
inductive Warn : Type where
  | initFirst
  | alreadyStarted
  | notRunning
deriving DecidableEq, Repr

/-- The loop-control state: the world plus `animationLoopId` and the
next id `requestAnimationFrame` would hand out. -/
structure LoopState where
  world : World
  animationLoopId : LoopId
  nextRafId : Nat

/-- A call of `animationLoop` itself: it first re-arms, storing the
fresh `requestAnimationFrame` id, then runs the tick body. -/
def animationLoopFn (ls : LoopState) : LoopState × List Ev :=
  let ls1 : LoopState :=
    { ls with
      animationLoopId := .someId ls.nextRafId
      nextRafId := ls.nextRafId + 1 }
  let r := runTick ls1.world
  ({ ls1 with world := r.world }, r.trace)

/-- `start` (index.ts lines 149-158): warn and return when renderer or
camera is unset; warn when `animationLoopId` is truthy — but then fall
through and call `animationLoop()` anyway. -/
def start (ls : LoopState) : LoopState × List Warn × List Ev :=
  if !ls.world.renderer || !ls.world.camera then
    (ls, [.initFirst], [])
  else
    let ws := if ls.animationLoopId.truthy then [.alreadyStarted] else []
    let r := animationLoopFn ls
    (r.1, ws, r.2)

/-- `stop` (index.ts lines 163-170): when `animationLoopId !== null`,
cancel the frame and set it to `null`; otherwise warn. -/
def stop (ls : LoopState) : LoopState × List Warn :=
  if ls.animationLoopId.notNull then
    ({ ls with animationLoopId := .nullId }, [])
  else (ls, [.notRunning])

end Unithree

namespace UnithreeState

/-
  The earlier engine revision src/core/UnithreeState.ts: plugins are
  `UnithreePlugin` values with `executionType : ExecutionType` drawn
  from `{ Once, Always }` and a single `run(deltaTime, isPaused)`
  hook (no initialize / dispose in UnithreePlugin.ts), kept in the
  array `_plugins: UnithreePlugin[]`.
-/

/-- `ExecutionType` of the earlier UnithreePlugin.ts. -/
inductive UExecType : Type where
  | once
  | always
deriving DecidableEq, Repr

/-- A `UnithreePlugin`, identified by its constructor name. -/
structure UPlugin where
  uname : String
  executionType : UExecType
deriving DecidableEq, Repr

/-- Observable plugin events of this revision: a `run(deltaTime,
isPaused)` call on the named plugin. -/
inductive UEv : Type where
  | runCall (uname : String) (delta : Nat) (paused : Bool)
deriving DecidableEq, Repr

/-- The relevant module state: `_plugins`, `deltaTime`, `isPaused`. -/
structure UState where
  plugins : List UPlugin
  deltaTime : Nat
  isPaused : Bool
deriving DecidableEq, Repr

/-- One step of `addPlugins` (UnithreeState.ts lines 84-93): branch
on `executionType`; `Once` runs the plugin immediately with the
current `deltaTime` / `isPaused` and discards it, `Always` (and the
default) pushes it onto `_plugins`. -/
def addPluginStep (st0 : UState) (acc : UState × List UEv) (p : UPlugin) :
    UState × List UEv :=
  match p.executionType with
  | .once => (acc.1, acc.2 ++ [.runCall p.uname st0.deltaTime st0.isPaused])
  | .always => ({ acc.1 with plugins := acc.1.plugins ++ [p] }, acc.2)

/-- `addPlugins` (UnithreeState.ts lines 83-94). -/
def addPlugins (st : UState) (ps : List UPlugin) : UState × List UEv :=
  ps.foldl (addPluginStep st) (st, [])

/-- The plugin pass of this revision's `animationLoop`:
`_plugins.forEach((plugin) => plugin.run(deltaTime, isPaused))`. -/
def pluginRunPass (st : UState) : List UEv :=
  st.plugins.map (fun p => .runCall p.uname st.deltaTime st.isPaused)

/-- Whether a plugin is of the `Always` kind. -/
def isAlways (p : UPlugin) : Bool :=
  match p.executionType with
  | .always => true
  | .once => false

theorem addPluginsFold_plugins (st0 : UState) (ps : List UPlugin)
    (acc : UState × List UEv) :
    ((ps.foldl (addPluginStep st0) acc).1.plugins) =
      acc.1.plugins ++ ps.filter isAlways := by
  induction ps generalizing acc with
  | nil => simp
  | cons p ps ih =>
    rw [List.foldl_cons, ih (addPluginStep st0 acc p)]
    cases hexec : p.executionType with
    | once => simp [addPluginStep, hexec, isAlways]
    | always => simp [addPluginStep, hexec, isAlways]

/-- `addPlugins` leaves the recurring table with exactly the previous
plugins followed by the `Always` plugins of the batch, in order. -/
theorem addPlugins_plugins (st : UState) (ps : List UPlugin) :
    (addPlugins st ps).1.plugins = st.plugins ++ ps.filter isAlways :=
  addPluginsFold_plugins st ps (st, [])

theorem addPluginsFold_trace_mem (st0 : UState) (ps : List UPlugin)
    (acc : UState × List UEv) (e : UEv) (he : e ∈ acc.2) :
    e ∈ (ps.foldl (addPluginStep st0) acc).2 := by
  induction ps generalizing acc with
  | nil => exact he
  | cons p ps ih =>
    rw [List.foldl_cons]
    refine ih (addPluginStep st0 acc p) ?_
    cases hexec : p.executionType with
    | once =>
      simp only [addPluginStep, hexec]
      exact List.mem_append_left _ he
    | always => simpa [addPluginStep, hexec] using he

/-- A `Once` plugin is run synchronously inside `addPlugins`, with
the `deltaTime` / `isPaused` current at the call. -/
theorem addPlugins_once_run (st : UState) (ps : List UPlugin)
    (p : UPlugin) (hp : p ∈ ps) (ho : p.executionType = .once) :
    UEv.runCall p.uname st.deltaTime st.isPaused ∈ (addPlugins st ps).2 := by
  unfold addPlugins
  have main : ∀ (l : List UPlugin) (acc : UState × List UEv), p ∈ l →
      UEv.runCall p.uname st.deltaTime st.isPaused ∈
        (l.foldl (addPluginStep st) acc).2 := by
    intro l
    induction l with
    | nil => intro acc hmem; exact absurd hmem (List.not_mem_nil p)
    | cons q l ih =>
      intro acc hmem
      rcases List.mem_cons.mp hmem with h1 | h1
      · subst h1
        rw [List.foldl_cons]
        refine addPluginsFold_trace_mem st l _ _ ?_
        simp only [addPluginStep, ho]
        exact List.mem_append_right _ (List.mem_singleton.mpr rfl)
      · rw [List.foldl_cons]
        exact ih (addPluginStep st acc q) h1
  exact main ps (st, []) hp

end UnithreeState

namespace Unithree

/- ### Flag heap lemmas -/

theorem setFlags_self (fl : Nat → EFlags) (u : Nat) (s : EFlags) :
    setFlags fl u s u = s := by
  simp [setFlags]

theorem setFlags_other (fl : Nat → EFlags) (u v : Nat) (s : EFlags)
    (h : v ≠ u) : setFlags fl u s v = fl v := by
  simp [setFlags, h]

/-- No callback action can clear `_isDead` (it is a protected field;
only `destroy()` writes it, and only to `true`). -/
theorem isDead_runAct (fl : Nat → EFlags) (a : Act) (u : Nat)
    (h : (fl u).isDead = true) : (runAct fl a u).isDead = true := by
  cases a with
  | destroyAct t =>
    by_cases hv : u = t
    · subst hv; simp [runAct, setFlags_self, destroyFlag]
    · simp [runAct, setFlags_other fl t u _ hv, h]
  | setEnabledAct t b =>
    by_cases hv : u = t
    · subst hv; simp [runAct, setFlags_self]; exact h
    · simp [runAct, setFlags_other fl t u _ hv, h]

theorem isDead_runActs (fl : Nat → EFlags) (acts : List Act) (u : Nat)
    (h : (fl u).isDead = true) : (runActs fl acts u).isDead = true := by
  induction acts generalizing fl with
  | nil => exact h
  | cons a acts ih =>
    simpa [runActs, List.foldl_cons] using
      ih (runAct fl a) (isDead_runAct fl a u h)

/-- No callback action touches `didStart` (only the scheduler writes
it, and only to `true`). -/
theorem didStart_runAct (fl : Nat → EFlags) (a : Act) (u : Nat) :
    (runAct fl a u).didStart = (fl u).didStart := by
  cases a with
  | destroyAct t =>
    by_cases hv : u = t
    · subst hv; simp [runAct, setFlags_self, destroyFlag]
    · simp [runAct, setFlags_other fl t u _ hv]
  | setEnabledAct t b =>
    by_cases hv : u = t
    · subst hv; simp [runAct, setFlags_self]
    · simp [runAct, setFlags_other fl t u _ hv]

theorem didStart_runActs (fl : Nat → EFlags) (acts : List Act) (u : Nat) :
    (runActs fl acts u).didStart = (fl u).didStart := by
  induction acts generalizing fl with
  | nil => rfl
  | cons a acts ih =>
    have h1 := ih (runAct fl a)
    have h2 := didStart_runAct fl a u
    simp only [runActs, List.foldl_cons] at h1 ⊢
    exact h1.trans h2

/-- A script that never disables `u` preserves the exact record
`⟨enabled, didStart, isDead⟩ = ⟨true, false, true⟩` at `u`. -/
theorem record_runAct (fl : Nat → EFlags) (a : Act) (u : Nat)
    (ha : a ≠ .setEnabledAct u false)
    (h : fl u = ⟨true, false, true⟩) :
    runAct fl a u = ⟨true, false, true⟩ := by
  cases a with
  | destroyAct t =>
    by_cases hv : u = t
    · subst hv; simp [runAct, setFlags_self, destroyFlag, h]
    · simp [runAct, setFlags_other fl t u _ hv, h]
  | setEnabledAct t b =>
    by_cases hv : u = t
    · subst hv
      cases b with
      | false => exact absurd rfl ha
      | true => simp [runAct, setFlags_self, h]
    · simp [runAct, setFlags_other fl t u _ hv, h]

theorem record_runActs (fl : Nat → EFlags) (acts : List Act) (u : Nat)
    (ha : Act.setEnabledAct u false ∉ acts)
    (h : fl u = ⟨true, false, true⟩) :
    runActs fl acts u = ⟨true, false, true⟩ := by
  induction acts generalizing fl with
  | nil => exact h
  | cons a acts ih =>
    have ha1 : a ≠ .setEnabledAct u false := by
      intro he; exact ha (he ▸ List.mem_cons_self a acts)
    have ha2 : Act.setEnabledAct u false ∉ acts := by
      intro he; exact ha (List.mem_cons_of_mem a he)
    simpa [runActs, List.foldl_cons] using
      ih (runAct fl a) ha2 (record_runAct fl a u ha1 h)

/- ### Start / reap-detection pass lemmas -/

theorem startStep_eq_pos (defs : Nat → EntDef) (acc : StartRes) (u : Nat)
    (hg : ((acc.flags u).enabled && !(acc.flags u).didStart) = true) :
    startStep defs acc u =
      { flags :=
          setFlags (runActs acc.flags (defs u).onStartActs) u
            { runActs acc.flags (defs u).onStartActs u with didStart := true }
        toDelete :=
          if ((setFlags (runActs acc.flags (defs u).onStartActs) u
                { runActs acc.flags (defs u).onStartActs u with
                  didStart := true }) u).isDead then
            acc.toDelete ++ [u]
          else acc.toDelete
        trace := acc.trace ++ [.entStart u] } := by
  simp [startStep, hg]

theorem startStep_eq_neg (defs : Nat → EntDef) (acc : StartRes) (u : Nat)
    (hg : ¬ ((acc.flags u).enabled && !(acc.flags u).didStart) = true) :
    startStep defs acc u =
      { flags := acc.flags
        toDelete :=
          if (acc.flags u).isDead then acc.toDelete ++ [u] else acc.toDelete
        trace := acc.trace } := by
  simp [startStep, hg]

theorem startStep_flags_isDead (defs : Nat → EntDef) (acc : StartRes)
    (v u : Nat) (h : (acc.flags u).isDead = true) :
    ((startStep defs acc v).flags u).isDead = true := by
  by_cases hg : ((acc.flags v).enabled && !(acc.flags v).didStart) = true
  · rw [startStep_eq_pos defs acc v hg]
    by_cases hv : u = v
    · subst hv
      simp only [setFlags_self]
      exact isDead_runActs acc.flags _ u h
    · simp only [setFlags_other _ _ _ _ hv]
      exact isDead_runActs acc.flags _ u h
  · rw [startStep_eq_neg defs acc v hg]; exact h

theorem startStep_flags_didStart (defs : Nat → EntDef) (acc : StartRes)
    (v u : Nat) (h : (acc.flags u).didStart = true) :
    ((startStep defs acc v).flags u).didStart = true := by
  by_cases hg : ((acc.flags v).enabled && !(acc.flags v).didStart) = true
  · rw [startStep_eq_pos defs acc v hg]
    by_cases hv : u = v
    · subst hv; simp only [setFlags_self]
    · simp only [setFlags_other _ _ _ _ hv]
      rw [didStart_runActs]; exact h
  · rw [startStep_eq_neg defs acc v hg]; exact h

theorem startStep_trace_cases (defs : Nat → EntDef) (acc : StartRes)
    (v : Nat) :
    (startStep defs acc v).trace = acc.trace ∨
      (startStep defs acc v).trace = acc.trace ++ [.entStart v] := by
  by_cases hg : ((acc.flags v).enabled && !(acc.flags v).didStart) = true
  · right; rw [startStep_eq_pos defs acc v hg]
  · left; rw [startStep_eq_neg defs acc v hg]

theorem startStep_toDelete_cases (defs : Nat → EntDef) (acc : StartRes)
    (v : Nat) :
    (startStep defs acc v).toDelete = acc.toDelete ∨
      (startStep defs acc v).toDelete = acc.toDelete ++ [v] := by
  by_cases hg : ((acc.flags v).enabled && !(acc.flags v).didStart) = true
  · rw [startStep_eq_pos defs acc v hg]
    by_cases hd :
        ((setFlags (runActs acc.flags (defs v).onStartActs) v
          { runActs acc.flags (defs v).onStartActs v with
            didStart := true }) v).isDead = true
    · right; simp [hd]
    · left; simp [hd]
  · rw [startStep_eq_neg defs acc v hg]
    by_cases hd : (acc.flags v).isDead = true
    · right; simp [hd]
    · left; simp [hd]

theorem startFold_isDead (defs : Nat → EntDef) (table : List Nat)
    (acc : StartRes) (u : Nat) (h : (acc.flags u).isDead = true) :
    ((table.foldl (startStep defs) acc).flags u).isDead = true := by
  induction table generalizing acc with
  | nil => exact h
  | cons v table ih =>
    exact ih (startStep defs acc v) (startStep_flags_isDead defs acc v u h)

theorem startFold_didStart (defs : Nat → EntDef) (table : List Nat)
    (acc : StartRes) (u : Nat) (h : (acc.flags u).didStart = true) :
    ((table.foldl (startStep defs) acc).flags u).didStart = true := by
  induction table generalizing acc with
  | nil => exact h
  | cons v table ih =>
    exact ih (startStep defs acc v) (startStep_flags_didStart defs acc v u h)

theorem startFold_trace_mem (defs : Nat → EntDef) (table : List Nat)
    (acc : StartRes) (e : Ev) (h : e ∈ acc.trace) :
    e ∈ (table.foldl (startStep defs) acc).trace := by
  induction table generalizing acc with
  | nil => exact h
  | cons v table ih =>
    refine ih (startStep defs acc v) ?_
    rcases startStep_trace_cases defs acc v with h1 | h1 <;> rw [h1]
    · exact h
    · exact List.mem_append_left _ h

theorem startFold_toDelete_mem (defs : Nat → EntDef) (table : List Nat)
    (acc : StartRes) (u : Nat) (h : u ∈ acc.toDelete) :
    u ∈ (table.foldl (startStep defs) acc).toDelete := by
  induction table generalizing acc with
  | nil => exact h
  | cons v table ih =>
    refine ih (startStep defs acc v) ?_
    rcases startStep_toDelete_cases defs acc v with h1 | h1 <;> rw [h1]
    · exact h
    · exact List.mem_append_left _ h

theorem startFold_trace_shape (defs : Nat → EntDef) (table : List Nat)
    (acc : StartRes) (e : Ev)
    (h : e ∈ (table.foldl (startStep defs) acc).trace) :
    e ∈ acc.trace ∨ ∃ v, e = .entStart v := by
  induction table generalizing acc with
  | nil => exact Or.inl h
  | cons v table ih =>
    rcases ih (startStep defs acc v) h with h1 | h1
    · rcases startStep_trace_cases defs acc v with h2 | h2 <;> rw [h2] at h1
      · exact Or.inl h1
      · rcases List.mem_append.mp h1 with h3 | h3
        · exact Or.inl h3
        · exact Or.inr ⟨v, List.mem_singleton.mp h3⟩
    · exact Or.inr h1

/-- An entity that is already dead when the start / reap-detection
pass reaches it is collected into `toDelete`. -/
theorem startFold_detect (defs : Nat → EntDef) (table : List Nat)
    (acc : StartRes) (u : Nat) (hu : u ∈ table)
    (h : (acc.flags u).isDead = true) :
    u ∈ (table.foldl (startStep defs) acc).toDelete := by
  induction table generalizing acc with
  | nil => exact absurd hu (List.not_mem_nil u)
  | cons v table ih =>
    by_cases hv : u = v
    · subst hv
      have hd : ((startStep defs acc u).flags u).isDead = true :=
        startStep_flags_isDead defs acc u u h
      have hmem : u ∈ (startStep defs acc u).toDelete := by
        by_cases hg : ((acc.flags u).enabled && !(acc.flags u).didStart) = true
        · rw [startStep_eq_pos defs acc u hg] at hd ⊢
          simp only at hd
          simp [hd]
        · rw [startStep_eq_neg defs acc u hg] at hd ⊢
          simp only at hd
          simp [hd]
      exact startFold_toDelete_mem defs table _ u hmem
    · have hu' : u ∈ table := by
        rcases List.mem_cons.mp hu with h1 | h1
        · exact absurd h1 hv
        · exact h1
      exact ih (startStep defs acc v) hu'
        (startStep_flags_isDead defs acc v u h)

theorem startStep_fired_didStart (defs : Nat → EntDef) (acc : StartRes)
    (v : Nat)
    (hg : ((acc.flags v).enabled && !(acc.flags v).didStart) = true) :
    ((startStep defs acc v).flags v).didStart = true := by
  rw [startStep_eq_pos defs acc v hg]
  simp [setFlags_self]

/-- If the start step delivered `onStart` (the trace grew), then at
the moment of the call `enabled` was true and `didStart` was false,
and the scheduler set `didStart` to true immediately after. -/
theorem startStep_fire_guard (defs : Nat → EntDef) (acc : StartRes)
    (u : Nat) (h : (startStep defs acc u).trace ≠ acc.trace) :
    (acc.flags u).enabled = true ∧ (acc.flags u).didStart = false ∧
      ((startStep defs acc u).flags u).didStart = true := by
  by_cases hg : ((acc.flags u).enabled && !(acc.flags u).didStart) = true
  · have hg' := hg
    simp only [Bool.and_eq_true, Bool.not_eq_true'] at hg'
    exact ⟨hg'.1, hg'.2, startStep_fired_didStart defs acc u hg⟩
  · rw [startStep_eq_neg defs acc u hg] at h
    exact absurd rfl h

theorem startFold_count_of_not_mem (defs : Nat → EntDef)
    (table : List Nat) (acc : StartRes) (u : Nat) (hu : u ∉ table) :
    ((table.foldl (startStep defs) acc).trace).count (Ev.entStart u) =
      (acc.trace).count (Ev.entStart u) := by
  induction table generalizing acc with
  | nil => rfl
  | cons v table ih =>
    have hv : u ≠ v := fun h => hu (h ▸ List.mem_cons_self v table)
    have h2 : u ∉ table := fun h => hu (List.mem_cons_of_mem v h)
    have hstep : ((startStep defs acc v).trace).count (Ev.entStart u) =
        (acc.trace).count (Ev.entStart u) := by
      rcases startStep_trace_cases defs acc v with h1 | h1 <;> rw [h1]
      rw [List.count_append]
      have hnm : (Ev.entStart u) ∉ [Ev.entStart v] := by simp; omega
      rw [List.count_eq_zero.mpr hnm, Nat.add_zero]
    rw [List.foldl_cons, ih (startStep defs acc v) h2, hstep]

theorem startFold_count_of_didStart (defs : Nat → EntDef)
    (table : List Nat) (acc : StartRes) (u : Nat)
    (h : (acc.flags u).didStart = true) :
    ((table.foldl (startStep defs) acc).trace).count (Ev.entStart u) =
      (acc.trace).count (Ev.entStart u) := by
  induction table generalizing acc with
  | nil => rfl
  | cons v table ih =>
    have hpres : ((startStep defs acc v).flags u).didStart = true :=
      startStep_flags_didStart defs acc v u h
    have hstep : ((startStep defs acc v).trace).count (Ev.entStart u) =
        (acc.trace).count (Ev.entStart u) := by
      by_cases hv : v = u
      · subst hv
        have hg : ¬ ((acc.flags v).enabled && !(acc.flags v).didStart)
            = true := by simp [h]
        rw [startStep_eq_neg defs acc v hg]
      · rcases startStep_trace_cases defs acc v with h1 | h1 <;> rw [h1]
        rw [List.count_append]
        have hnm : (Ev.entStart u) ∉ [Ev.entStart v] := by simp; omega
        rw [List.count_eq_zero.mpr hnm, Nat.add_zero]
    rw [List.foldl_cons, ih (startStep defs acc v) hpres, hstep]

/-- Within one pass over a duplicate-free table, `onStart` fires at
most once for a given entity. -/
theorem startFold_count_le_one (defs : Nat → EntDef) (table : List Nat)
    (acc : StartRes) (u : Nat) (hN : table.Nodup)
    (hc : (acc.trace).count (Ev.entStart u) = 0) :
    ((table.foldl (startStep defs) acc).trace).count (Ev.entStart u) ≤ 1 := by
  induction table generalizing acc with
  | nil => rw [List.foldl_nil, hc]; exact Nat.zero_le 1
  | cons v table ih =>
    have hvn : v ∉ table := (List.nodup_cons.mp hN).1
    have hN' : table.Nodup := (List.nodup_cons.mp hN).2
    by_cases hv : u = v
    · subst hv
      have hstep : ((startStep defs acc u).trace).count (Ev.entStart u)
          ≤ 1 := by
        rcases startStep_trace_cases defs acc u with h1 | h1 <;> rw [h1]
        · rw [hc]; exact Nat.zero_le 1
        · rw [List.count_append, hc]
          simp
      rw [List.foldl_cons,
        startFold_count_of_not_mem defs table (startStep defs acc u) u hvn]
      exact hstep
    · have hstep : ((startStep defs acc v).trace).count (Ev.entStart u)
          = 0 := by
        rcases startStep_trace_cases defs acc v with h1 | h1 <;> rw [h1]
        · exact hc
        · rw [List.count_append]
          have hnm : (Ev.entStart u) ∉ [Ev.entStart v] := by simp; omega
          rw [List.count_eq_zero.mpr hnm, hc]
      rw [List.foldl_cons]
      exact ih (startStep defs acc v) hN' hstep

/-- If the pass emitted `onStart` for `u`, then `didStart` holds at
the end of the pass. -/
theorem startFold_mem_didStart (defs : Nat → EntDef) (table : List Nat)
    (acc : StartRes) (u : Nat)
    (h : Ev.entStart u ∈ (table.foldl (startStep defs) acc).trace) :
    Ev.entStart u ∈ acc.trace ∨
      ((table.foldl (startStep defs) acc).flags u).didStart = true := by
  induction table generalizing acc with
  | nil => exact Or.inl h
  | cons v table ih =>
    rw [List.foldl_cons] at h ⊢
    rcases ih (startStep defs acc v) h with h1 | h1
    · by_cases hg : ((acc.flags v).enabled && !(acc.flags v).didStart)
          = true
      · have htr : (startStep defs acc v).trace
            = acc.trace ++ [.entStart v] := by
          rw [startStep_eq_pos defs acc v hg]
        rw [htr] at h1
        rcases List.mem_append.mp h1 with h2 | h2
        · exact Or.inl h2
        · have hv : v = u := by
            have := List.mem_singleton.mp h2
            cases this; rfl
          subst hv
          exact Or.inr (startFold_didStart defs table _ v
            (startStep_fired_didStart defs acc v hg))
      · rw [startStep_eq_neg defs acc v hg] at h1
        exact Or.inl h1
    · exact Or.inr h1

/- ### Entity update pass lemmas -/

theorem entityStep_isDead (defs : Nat → EntDef) (sel : EntDef → List Act)
    (evc : Nat → Ev) (acc : (Nat → EFlags) × List Ev) (v u : Nat)
    (h : (acc.1 u).isDead = true) :
    ((entityStep defs sel evc acc v).1 u).isDead = true := by
  by_cases hg : ((acc.1 v).enabled && !(acc.1 v).isDead) = true
  · simp only [entityStep, hg, if_true]
    exact isDead_runActs acc.1 _ u h
  · simp only [entityStep, hg, if_false]
    exact h

theorem entityStep_didStart (defs : Nat → EntDef) (sel : EntDef → List Act)
    (evc : Nat → Ev) (acc : (Nat → EFlags) × List Ev) (v u : Nat)
    (h : (acc.1 u).didStart = true) :
    ((entityStep defs sel evc acc v).1 u).didStart = true := by
  by_cases hg : ((acc.1 v).enabled && !(acc.1 v).isDead) = true
  · simp only [entityStep, hg, if_true]
    rw [didStart_runActs]; exact h
  · simp only [entityStep, hg, if_false]
    exact h

theorem entityStep_trace_cases (defs : Nat → EntDef)
    (sel : EntDef → List Act) (evc : Nat → Ev)
    (acc : (Nat → EFlags) × List Ev) (v : Nat) :
    (entityStep defs sel evc acc v).2 = acc.2 ∨
      (entityStep defs sel evc acc v).2 = acc.2 ++ [evc v] := by
  by_cases hg : ((acc.1 v).enabled && !(acc.1 v).isDead) = true
  · right; simp only [entityStep, hg, if_true]
  · left; simp [entityStep, hg]

theorem entityFold_isDead (defs : Nat → EntDef) (sel : EntDef → List Act)
    (evc : Nat → Ev) (table : List Nat)
    (acc : (Nat → EFlags) × List Ev) (u : Nat)
    (h : (acc.1 u).isDead = true) :
    ((table.foldl (entityStep defs sel evc) acc).1 u).isDead = true := by
  induction table generalizing acc with
  | nil => exact h
  | cons v table ih =>
    exact ih (entityStep defs sel evc acc v)
      (entityStep_isDead defs sel evc acc v u h)

theorem entityFold_didStart (defs : Nat → EntDef) (sel : EntDef → List Act)
    (evc : Nat → Ev) (table : List Nat)
    (acc : (Nat → EFlags) × List Ev) (u : Nat)
    (h : (acc.1 u).didStart = true) :
    ((table.foldl (entityStep defs sel evc) acc).1 u).didStart = true := by
  induction table generalizing acc with
  | nil => exact h
  | cons v table ih =>
    exact ih (entityStep defs sel evc acc v)
      (entityStep_didStart defs sel evc acc v u h)

theorem entityFold_trace_shape (defs : Nat → EntDef)
    (sel : EntDef → List Act) (evc : Nat → Ev) (table : List Nat)
    (acc : (Nat → EFlags) × List Ev) (e : Ev)
    (h : e ∈ (table.foldl (entityStep defs sel evc) acc).2) :
    e ∈ acc.2 ∨ ∃ v, e = evc v := by
  induction table generalizing acc with
  | nil => exact Or.inl h
  | cons v table ih =>
    rcases ih (entityStep defs sel evc acc v) h with h1 | h1
    · rcases entityStep_trace_cases defs sel evc acc v with h2 | h2 <;>
        rw [h2] at h1
      · exact Or.inl h1
      · rcases List.mem_append.mp h1 with h3 | h3
        · exact Or.inl h3
        · exact Or.inr ⟨v, List.mem_singleton.mp h3⟩
    · exact Or.inr h1

/-- An entity that is dead when an update pass begins is skipped for
the whole pass (the guard rereads `isDead` and no action clears it),
and is still dead afterwards. -/
theorem entityFold_dead_no_event (defs : Nat → EntDef)
    (sel : EntDef → List Act) (evc : Nat → Ev) (table : List Nat)
    (acc : (Nat → EFlags) × List Ev) (u : Nat)
    (hinj : ∀ v, evc v = evc u → v = u)
    (hd : (acc.1 u).isDead = true) (hni : evc u ∉ acc.2) :
    evc u ∉ (table.foldl (entityStep defs sel evc) acc).2 ∧
      ((table.foldl (entityStep defs sel evc) acc).1 u).isDead = true := by
  induction table generalizing acc with
  | nil => exact ⟨hni, hd⟩
  | cons v table ih =>
    by_cases hv : v = u
    · subst hv
      have hg : ¬ ((acc.1 v).enabled && !(acc.1 v).isDead) = true := by
        simp [hd]
      have hstep : entityStep defs sel evc acc v = acc := by
        simp [entityStep, hg]
      rw [List.foldl_cons, hstep]
      exact ih acc hd hni
    · have hd' : ((entityStep defs sel evc acc v).1 u).isDead = true :=
        entityStep_isDead defs sel evc acc v u hd
      have hni' : evc u ∉ (entityStep defs sel evc acc v).2 := by
        rcases entityStep_trace_cases defs sel evc acc v with h2 | h2 <;>
          rw [h2]
        · exact hni
        · intro hmem
          rcases List.mem_append.mp hmem with h3 | h3
          · exact hni h3
          · exact hv (hinj v (List.mem_singleton.mp h3).symm)
      rw [List.foldl_cons]
      exact ih (entityStep defs sel evc acc v) hd' hni'

/- ### Plugin pass lemmas -/

theorem pluginInitStep_keys (acc : List (String × Plugin) × List Ev)
    (p : String × Plugin) :
    (pluginInitStep acc p).1.map Prod.fst = acc.1.map Prod.fst ++ [p.1] := by
  by_cases hg : (p.2.enabled && !p.2.initDone) = true <;>
    simp [pluginInitStep, hg]

theorem pluginInitFold_keys (ps : List (String × Plugin))
    (acc : List (String × Plugin) × List Ev) :
    (ps.foldl pluginInitStep acc).1.map Prod.fst =
      acc.1.map Prod.fst ++ ps.map Prod.fst := by
  induction ps generalizing acc with
  | nil => simp
  | cons p ps ih =>
    rw [List.foldl_cons, ih (pluginInitStep acc p), pluginInitStep_keys]
    simp

/-- The plugin init pass keeps every plugin in the table, in order. -/
theorem pluginInitPass_keys (ps : List (String × Plugin)) :
    (pluginInitPass ps).1.map Prod.fst = ps.map Prod.fst := by
  simpa using pluginInitFold_keys ps ([], [])

theorem pluginInitStep_trace_cases (acc : List (String × Plugin) × List Ev)
    (p : String × Plugin) :
    (pluginInitStep acc p).2 = acc.2 ∨
      (pluginInitStep acc p).2 = acc.2 ++ [.pluginInit p.1] := by
  by_cases hg : (p.2.enabled && !p.2.initDone) = true
  · right; simp [pluginInitStep, hg]
  · left; simp [pluginInitStep, hg]

theorem pluginInitFold_trace_shape (ps : List (String × Plugin))
    (acc : List (String × Plugin) × List Ev) (e : Ev)
    (h : e ∈ (ps.foldl pluginInitStep acc).2) :
    e ∈ acc.2 ∨ ∃ nm, e = .pluginInit nm := by
  induction ps generalizing acc with
  | nil => exact Or.inl h
  | cons p ps ih =>
    rcases ih (pluginInitStep acc p) h with h1 | h1
    · rcases pluginInitStep_trace_cases acc p with h2 | h2 <;> rw [h2] at h1
      · exact Or.inl h1
      · rcases List.mem_append.mp h1 with h3 | h3
        · exact Or.inl h3
        · exact Or.inr ⟨p.1, List.mem_singleton.mp h3⟩
    · exact Or.inr h1

/- ### Reap pass lemmas -/

theorem deleteId_self_not_mem (t : List Nat) (u : Nat) :
    u ∉ deleteId t u := by
  simp [deleteId]

theorem deleteId_not_mem (t : List Nat) (v x : Nat) (h : x ∉ t) :
    x ∉ deleteId t v := by
  intro hmem
  exact h (List.mem_of_mem_filter hmem)

theorem foldl_deleteId_not_mem (ids : List Nat) (t : List Nat) (x : Nat)
    (h : x ∉ t) : x ∉ ids.foldl deleteId t := by
  induction ids generalizing t with
  | nil => exact h
  | cons i ids ih => exact ih (deleteId t i) (deleteId_not_mem t i x h)

theorem foldl_deleteId_mem_ids (ids : List Nat) (t : List Nat) (x : Nat)
    (h : x ∈ ids) : x ∉ ids.foldl deleteId t := by
  induction ids generalizing t with
  | nil => exact absurd h (List.not_mem_nil x)
  | cons i ids ih =>
    by_cases hx : x = i
    · subst hx
      exact foldl_deleteId_not_mem ids (deleteId t x) x
        (deleteId_self_not_mem t x)
    · have h2 : x ∈ ids := by
        rcases List.mem_cons.mp h with h1 | h1
        · exact absurd h1 hx
        · exact h1
      exact ih (deleteId t i) h2

theorem reapOne_not_mem (roots0 : List Obj) (st : List Obj × List Nat)
    (v x : Nat) (h : x ∉ st.2) : x ∉ (reapOne roots0 st v).2 :=
  foldl_deleteId_not_mem _ _ x h

theorem reapFold_not_mem (roots0 : List Obj) (toDelete : List Nat)
    (st : List Obj × List Nat) (x : Nat) (h : x ∉ st.2) :
    x ∉ (toDelete.foldl (reapOne roots0) st).2 := by
  induction toDelete generalizing st with
  | nil => exact h
  | cons v toDelete ih =>
    exact ih (reapOne roots0 st v) (reapOne_not_mem roots0 st v x h)

/-- Every uuid in the remove list of any collected dead entity is
absent from the live-entity table after the reap pass. -/
theorem reapFold_removes (roots0 : List Obj) (toDelete : List Nat)
    (st : List Obj × List Nat) (v x : Nat) (hv : v ∈ toDelete)
    (hx : x ∈ removeIdsFor roots0 v) :
    x ∉ (toDelete.foldl (reapOne roots0) st).2 := by
  induction toDelete generalizing st with
  | nil => exact absurd hv (List.not_mem_nil v)
  | cons w toDelete ih =>
    by_cases hw : v = w
    · subst hw
      have h1 : x ∉ (reapOne roots0 st v).2 :=
        foldl_deleteId_mem_ids _ _ x hx
      exact reapFold_not_mem roots0 toDelete (reapOne roots0 st v) x h1
    · have h2 : v ∈ toDelete := by
        rcases List.mem_cons.mp hv with h1 | h1
        · exact absurd h1 hw
        · exact h1
      exact ih (reapOne roots0 st w) h2

theorem reapPass_removes (roots : List Obj) (table toDelete : List Nat)
    (v x : Nat) (hv : v ∈ toDelete) (hx : x ∈ removeIdsFor roots v) :
    x ∉ (reapPass roots table toDelete).2 :=
  reapFold_removes roots toDelete (roots, table) v x hv hx

theorem reapPass_not_mem (roots : List Obj) (table toDelete : List Nat)
    (x : Nat) (h : x ∉ table) : x ∉ (reapPass roots table toDelete).2 :=
  reapFold_not_mem roots toDelete (roots, table) x h

theorem deleteId_nodup (t : List Nat) (u : Nat) (h : t.Nodup) :
    (deleteId t u).Nodup :=
  List.Nodup.filter _ h

theorem reapPass_nodup (roots : List Obj) (table toDelete : List Nat)
    (h : table.Nodup) : (reapPass roots table toDelete).2.Nodup := by
  have main : ∀ (td : List Nat) (st : List Obj × List Nat),
      st.2.Nodup → (td.foldl (reapOne roots) st).2.Nodup := by
    intro td
    induction td with
    | nil => intro st h2; exact h2
    | cons v td ih =>
      intro st h2
      refine ih (reapOne roots st v) ?_
      have sub : ∀ (ids : List Nat) (t : List Nat),
          t.Nodup → (ids.foldl deleteId t).Nodup := by
        intro ids
        induction ids with
        | nil => intro t h3; exact h3
        | cons i ids ih2 =>
          intro t h3
          exact ih2 (deleteId t i) (deleteId_nodup t i h3)
      exact sub _ st.2 h2
  exact main toDelete (roots, table) h

/-- The uuid of any entity in the recorded subtree of a dead entity is
in its remove list. -/
theorem mem_removeIdsFor (roots : List Obj) (u : Nat) (o d : Obj)
    (ho : findObj roots u = some o) (hd : d ∈ o.traverseList)
    (he : d.isEntity = true) : d.uuid ∈ removeIdsFor roots u := by
  unfold removeIdsFor
  rw [ho]
  refine List.mem_cons_of_mem u ?_
  exact List.mem_map_of_mem Obj.uuid (List.mem_filter.mpr ⟨hd, he⟩)

theorem self_mem_removeIdsFor (roots : List Obj) (u : Nat) :
    u ∈ removeIdsFor roots u := by
  unfold removeIdsFor
  exact List.mem_cons_self u _

/- ### Tick-level lemmas -/

theorem runTick_table (w : World) :
    (runTick w).world.table =
      (reapPass w.roots w.table
        (startPass w.defs w.table w.flags).toDelete).2 := rfl

theorem runTick_plugins (w : World) :
    (runTick w).world.plugins = (pluginInitPass w.plugins).1 := rfl

theorem runTick_flags (w : World) :
    (runTick w).world.flags =
      (entityPass w.defs EntDef.onLateUpdateActs Ev.entLateUpdate
        (reapPass w.roots w.table
          (startPass w.defs w.table w.flags).toDelete).2
        (entityPass w.defs EntDef.onUpdateActs Ev.entUpdate
          (reapPass w.roots w.table
            (startPass w.defs w.table w.flags).toDelete).2
          (startPass w.defs w.table w.flags).flags).1).1 := rfl

theorem runTick_trace (w : World) :
    (runTick w).trace =
      (pluginInitPass w.plugins).2 ++
      (startPass w.defs w.table w.flags).trace ++
      renderPass w.camera w.renderer ++
      pluginUpdatePass (pluginInitPass w.plugins).1 ++
      (entityPass w.defs EntDef.onUpdateActs Ev.entUpdate
        (reapPass w.roots w.table
          (startPass w.defs w.table w.flags).toDelete).2
        (startPass w.defs w.table w.flags).flags).2 ++
      (entityPass w.defs EntDef.onLateUpdateActs Ev.entLateUpdate
        (reapPass w.roots w.table
          (startPass w.defs w.table w.flags).toDelete).2
        (entityPass w.defs EntDef.onUpdateActs Ev.entUpdate
          (reapPass w.roots w.table
            (startPass w.defs w.table w.flags).toDelete).2
          (startPass w.defs w.table w.flags).flags).1).2 ++
      pluginLatePass (pluginInitPass w.plugins).1 := rfl

theorem runTicks_succ (n : Nat) (w : World) :
    runTicks (n + 1) w =
      ((runTicks n (runTick w).world).1,
       (runTick w).trace ++ (runTicks n (runTick w).world).2) := rfl

/-- An entity that is dead at the top of a tick receives neither
`onUpdate` nor `onLateUpdate` during that tick and is still dead at
the end of the tick. -/
theorem runTick_dead_no_update (w : World) (u : Nat)
    (h : (w.flags u).isDead = true) :
    Ev.entUpdate u ∉ (runTick w).trace ∧
      Ev.entLateUpdate u ∉ (runTick w).trace ∧
      (((runTick w).world.flags) u).isDead = true := by
  have hinjU : ∀ v, Ev.entUpdate v = Ev.entUpdate u → v = u := by
    intro v hv; injection hv
  have hinjL : ∀ v, Ev.entLateUpdate v = Ev.entLateUpdate u → v = u := by
    intro v hv; injection hv
  have hsd : ((startPass w.defs w.table w.flags).flags u).isDead = true :=
    startFold_isDead w.defs w.table ⟨w.flags, [], []⟩ u h
  set tb := (reapPass w.roots w.table
    (startPass w.defs w.table w.flags).toDelete).2 with htb
  have hup := entityFold_dead_no_event w.defs EntDef.onUpdateActs
    Ev.entUpdate tb ((startPass w.defs w.table w.flags).flags, []) u
    hinjU hsd (List.not_mem_nil _)
  have hlu := entityFold_dead_no_event w.defs EntDef.onLateUpdateActs
    Ev.entLateUpdate tb
    ((entityPass w.defs EntDef.onUpdateActs Ev.entUpdate tb
        (startPass w.defs w.table w.flags).flags).1, []) u
    hinjL hup.2 (List.not_mem_nil _)
  have hrender : ∀ e, e ∈ renderPass w.camera w.renderer →
      e = Ev.render ∨ e = Ev.renderError := by
    intro e he
    by_cases hc : (w.camera && w.renderer) = true <;>
      simp [renderPass, hc] at he <;> simp [he]
  refine ⟨?_, ?_, ?_⟩
  · rw [runTick_trace]
    intro hmem
    simp only [List.mem_append] at hmem
    rcases hmem with ((((((h1 | h1) | h1) | h1) | h1) | h1) | h1)
    · rcases pluginInitFold_trace_shape _ _ _ h1 with h2 | ⟨nm, h2⟩
      · exact (List.not_mem_nil _) h2
      · exact Ev.noConfusion h2
    · rcases startFold_trace_shape _ _ _ _ h1 with h2 | ⟨v, h2⟩
      · exact (List.not_mem_nil _) h2
      · exact Ev.noConfusion h2
    · rcases hrender _ h1 with h2 | h2 <;> exact Ev.noConfusion h2
    · rcases List.mem_map.mp h1 with ⟨p, _, h2⟩
      exact Ev.noConfusion h2
    · exact hup.1 h1
    · rcases entityFold_trace_shape _ _ _ _ _ _ h1 with h2 | ⟨v, h2⟩
      · exact (List.not_mem_nil _) h2
      · exact Ev.noConfusion h2
    · rcases List.mem_map.mp h1 with ⟨p, _, h2⟩
      exact Ev.noConfusion h2
  · rw [runTick_trace]
    intro hmem
    simp only [List.mem_append] at hmem
    rcases hmem with ((((((h1 | h1) | h1) | h1) | h1) | h1) | h1)
    · rcases pluginInitFold_trace_shape _ _ _ h1 with h2 | ⟨nm, h2⟩
      · exact (List.not_mem_nil _) h2
      · exact Ev.noConfusion h2
    · rcases startFold_trace_shape _ _ _ _ h1 with h2 | ⟨v, h2⟩
      · exact (List.not_mem_nil _) h2
      · exact Ev.noConfusion h2
    · rcases hrender _ h1 with h2 | h2 <;> exact Ev.noConfusion h2
    · rcases List.mem_map.mp h1 with ⟨p, _, h2⟩
      exact Ev.noConfusion h2
    · rcases entityFold_trace_shape _ _ _ _ _ _ h1 with h2 | ⟨v, h2⟩
      · exact (List.not_mem_nil _) h2
      · exact Ev.noConfusion h2
    · exact hlu.1 h1
    · rcases List.mem_map.mp h1 with ⟨p, _, h2⟩
      exact Ev.noConfusion h2
  · rw [runTick_flags]
    exact hlu.2

/-- An entity that is dead at the top of a tick is removed from the
live-entity table by that tick's reap pass. -/
theorem runTick_dead_removed (w : World) (u : Nat)
    (h : (w.flags u).isDead = true) :
    u ∉ (runTick w).world.table := by
  rw [runTick_table]
  by_cases hu : u ∈ w.table
  · have hdel : u ∈ (startPass w.defs w.table w.flags).toDelete :=
      startFold_detect w.defs w.table ⟨w.flags, [], []⟩ u hu h
    exact reapPass_removes w.roots w.table _ u u hdel
      (self_mem_removeIdsFor w.roots u)
  · exact reapPass_not_mem w.roots w.table _ u hu

/-- Dead entities receive no update events in any later tick. -/
theorem runTicks_dead_no_update (n : Nat) (w : World) (u : Nat)
    (h : (w.flags u).isDead = true) :
    Ev.entUpdate u ∉ (runTicks n w).2 ∧
      Ev.entLateUpdate u ∉ (runTicks n w).2 := by
  induction n generalizing w with
  | zero => exact ⟨List.not_mem_nil _, List.not_mem_nil _⟩
  | succ n ih =>
    have h1 := runTick_dead_no_update w u h
    have h2 := ih (runTick w).world h1.2.2
    rw [runTicks_succ]
    constructor
    · intro hmem
      rcases List.mem_append.mp hmem with h3 | h3
      · exact h1.1 h3
      · exact h2.1 h3
    · intro hmem
      rcases List.mem_append.mp hmem with h3 | h3
      · exact h1.2.1 h3
      · exact h2.2 h3

/-- `didStart` is never cleared: true at the top of a tick implies
true at the end of it. -/
theorem runTick_didStart_mono (w : World) (u : Nat)
    (h : (w.flags u).didStart = true) :
    (((runTick w).world.flags) u).didStart = true := by
  rw [runTick_flags]
  refine entityFold_didStart _ _ _ _ _ u ?_
  refine entityFold_didStart _ _ _ _ _ u ?_
  exact startFold_didStart w.defs w.table ⟨w.flags, [], []⟩ u h

/-- Shape of an entity pass trace: only this pass's events. -/
theorem entityPass_trace_shape (defs : Nat → EntDef)
    (sel : EntDef → List Act) (evc : Nat → Ev) (table : List Nat)
    (fl : Nat → EFlags) (e : Ev)
    (h : e ∈ (entityPass defs sel evc table fl).2) : ∃ v, e = evc v := by
  rcases entityFold_trace_shape defs sel evc table (fl, []) e h with h1 | h1
  · exact absurd h1 (List.not_mem_nil _)
  · exact h1

theorem startPass_trace_shape (defs : Nat → EntDef) (table : List Nat)
    (fl : Nat → EFlags) (e : Ev)
    (h : e ∈ (startPass defs table fl).trace) : ∃ v, e = .entStart v := by
  rcases startFold_trace_shape defs table ⟨fl, [], []⟩ e h with h1 | h1
  · exact absurd h1 (List.not_mem_nil _)
  · exact h1

theorem pluginInitPass_trace_shape (ps : List (String × Plugin)) (e : Ev)
    (h : e ∈ (pluginInitPass ps).2) : ∃ nm, e = .pluginInit nm := by
  rcases pluginInitFold_trace_shape ps ([], []) e h with h1 | h1
  · exact absurd h1 (List.not_mem_nil _)
  · exact h1

theorem startPass_count_of_didStart (defs : Nat → EntDef)
    (table : List Nat) (fl : Nat → EFlags) (u : Nat)
    (h : (fl u).didStart = true) :
    ((startPass defs table fl).trace).count (Ev.entStart u) = 0 := by
  unfold startPass
  rw [startFold_count_of_didStart defs table ⟨fl, [], []⟩ u h]
  rfl

theorem startPass_count_le_one (defs : Nat → EntDef) (table : List Nat)
    (fl : Nat → EFlags) (u : Nat) (hN : table.Nodup) :
    ((startPass defs table fl).trace).count (Ev.entStart u) ≤ 1 := by
  unfold startPass
  exact startFold_count_le_one defs table ⟨fl, [], []⟩ u hN rfl

/-- Only the start pass emits `onStart` events, so a tick's `onStart`
count equals the start pass's. -/
theorem runTick_count_start (w : World) (u : Nat) :
    ((runTick w).trace).count (Ev.entStart u) =
      ((startPass w.defs w.table w.flags).trace).count (Ev.entStart u) := by
  have hzero : ∀ (l : List Ev),
      (∀ e ∈ l, e ≠ Ev.entStart u) → l.count (Ev.entStart u) = 0 := by
    intro l hl
    exact List.count_eq_zero.mpr (fun hmem => hl _ hmem rfl)
  have hz1 : ((pluginInitPass w.plugins).2).count (Ev.entStart u) = 0 := by
    refine hzero _ ?_
    intro e he
    rcases pluginInitPass_trace_shape _ _ he with ⟨nm, h2⟩
    subst h2; exact fun hc => Ev.noConfusion hc
  have hz3 : (renderPass w.camera w.renderer).count (Ev.entStart u) = 0 := by
    refine hzero _ ?_
    intro e he
    by_cases hc : (w.camera && w.renderer) = true <;>
      simp [renderPass, hc] at he <;> subst he <;>
      exact fun hc2 => Ev.noConfusion hc2
  have hz4 : (pluginUpdatePass (pluginInitPass w.plugins).1).count
      (Ev.entStart u) = 0 := by
    refine hzero _ ?_
    intro e he
    rcases List.mem_map.mp he with ⟨p, _, h2⟩
    subst h2; exact fun hc => Ev.noConfusion hc
  have hz5 : ((entityPass w.defs EntDef.onUpdateActs Ev.entUpdate
      (reapPass w.roots w.table
        (startPass w.defs w.table w.flags).toDelete).2
      (startPass w.defs w.table w.flags).flags).2).count
        (Ev.entStart u) = 0 := by
    refine hzero _ ?_
    intro e he
    rcases entityPass_trace_shape _ _ _ _ _ _ he with ⟨v, h2⟩
    subst h2; exact fun hc => Ev.noConfusion hc
  have hz6 : ((entityPass w.defs EntDef.onLateUpdateActs Ev.entLateUpdate
      (reapPass w.roots w.table
        (startPass w.defs w.table w.flags).toDelete).2
      (entityPass w.defs EntDef.onUpdateActs Ev.entUpdate
        (reapPass w.roots w.table
          (startPass w.defs w.table w.flags).toDelete).2
        (startPass w.defs w.table w.flags).flags).1).2).count
        (Ev.entStart u) = 0 := by
    refine hzero _ ?_
    intro e he
    rcases entityPass_trace_shape _ _ _ _ _ _ he with ⟨v, h2⟩
    subst h2; exact fun hc => Ev.noConfusion hc
  have hz7 : (pluginLatePass (pluginInitPass w.plugins).1).count
      (Ev.entStart u) = 0 := by
    refine hzero _ ?_
    intro e he
    rcases List.mem_map.mp he with ⟨p, _, h2⟩
    subst h2; exact fun hc => Ev.noConfusion hc
  rw [runTick_trace]
  simp only [List.count_append, hz1, hz3, hz4, hz5, hz6, hz7]
  omega

/-- Once `didStart` is true, no later tick ever emits `onStart`. -/
theorem runTicks_count_start_zero (n : Nat) (w : World) (u : Nat)
    (h : (w.flags u).didStart = true) :
    ((runTicks n w).2).count (Ev.entStart u) = 0 := by
  induction n generalizing w with
  | zero => rfl
  | succ n ih =>
    rw [runTicks_succ]
    simp only [List.count_append]
    rw [runTick_count_start w u,
      startPass_count_of_didStart w.defs w.table w.flags u h,
      ih (runTick w).world (runTick_didStart_mono w u h)]

/-- If a tick emitted `onStart` for `u`, then `didStart u` holds at
the end of that tick. -/
theorem runTick_start_mem_didStart (w : World) (u : Nat)
    (h : Ev.entStart u ∈ (startPass w.defs w.table w.flags).trace) :
    (((runTick w).world.flags) u).didStart = true := by
  rcases startFold_mem_didStart w.defs w.table ⟨w.flags, [], []⟩ u h with
    h1 | h1
  · exact absurd h1 (List.not_mem_nil _)
  · rw [runTick_flags]
    refine entityFold_didStart _ _ _ _ _ u ?_
    exact entityFold_didStart _ _ _ _ _ u h1

/-- The reap pass is the only table change of a tick, and it only
filters, so a duplicate-free table stays duplicate-free. -/
theorem runTick_nodup (w : World) (h : w.table.Nodup) :
    ((runTick w).world.table).Nodup := by
  rw [runTick_table]
  exact reapPass_nodup w.roots w.table _ h

/-- Across any run, `onStart` is emitted at most once per entity. -/
theorem runTicks_count_start_le_one (n : Nat) (w : World) (u : Nat)
    (hN : w.table.Nodup) :
    ((runTicks n w).2).count (Ev.entStart u) ≤ 1 := by
  induction n generalizing w with
  | zero => exact Nat.zero_le 1
  | succ n ih =>
    rw [runTicks_succ]
    simp only [List.count_append]
    have hc1 : ((runTick w).trace).count (Ev.entStart u) ≤ 1 := by
      rw [runTick_count_start w u]
      exact startPass_count_le_one w.defs w.table w.flags u hN
    by_cases hmem : Ev.entStart u ∈ (startPass w.defs w.table w.flags).trace
    · have hds := runTick_start_mem_didStart w u hmem
      rw [runTicks_count_start_zero n (runTick w).world u hds]
      omega
    · have hz : ((runTick w).trace).count (Ev.entStart u) = 0 := by
        rw [runTick_count_start w u]
        exact List.count_eq_zero.mpr hmem
      rw [hz]
      have := ih (runTick w).world (runTick_nodup w hN)
      omega

/-- If an entity's record is exactly `enabled ∧ ¬didStart ∧ isDead`
when the start pass reaches it (no other entity's `onStart` disables
it first), the pass fires `onStart`, marks it started, and still
collects it for the reap. -/
theorem startFold_record_fires (defs : Nat → EntDef) (table : List Nat)
    (acc : StartRes) (u : Nat) (hu : u ∈ table)
    (hf : acc.flags u = ⟨true, false, true⟩)
    (hs : ∀ v, Act.setEnabledAct u false ∉ (defs v).onStartActs) :
    Ev.entStart u ∈ (table.foldl (startStep defs) acc).trace ∧
      ((table.foldl (startStep defs) acc).flags u).didStart = true ∧
      u ∈ (table.foldl (startStep defs) acc).toDelete := by
  induction table generalizing acc with
  | nil => exact absurd hu (List.not_mem_nil u)
  | cons v table ih =>
    rw [List.foldl_cons]
    by_cases hv : v = u
    · subst hv
      have hg : ((acc.flags v).enabled && !(acc.flags v).didStart)
          = true := by rw [hf]; rfl
      have htr : (startStep defs acc v).trace
          = acc.trace ++ [.entStart v] := by
        rw [startStep_eq_pos defs acc v hg]
      have hdd : ((startStep defs acc v).flags v).didStart = true :=
        startStep_fired_didStart defs acc v hg
      have hdead : ((startStep defs acc v).flags v).isDead = true :=
        startStep_flags_isDead defs acc v v (by rw [hf])
      have htd : v ∈ (startStep defs acc v).toDelete := by
        rw [startStep_eq_pos defs acc v hg] at hdead ⊢
        simp only at hdead
        simp [hdead]
      refine ⟨?_, ?_, ?_⟩
      · refine startFold_trace_mem defs table _ _ ?_
        rw [htr]
        exact List.mem_append_right _ (List.mem_singleton.mpr rfl)
      · exact startFold_didStart defs table _ v hdd
      · exact startFold_toDelete_mem defs table _ v htd
    · have hu' : u ∈ table := by
        rcases List.mem_cons.mp hu with h1 | h1
        · exact absurd h1 (fun he => hv he.symm)
        · exact h1
      have hf' : (startStep defs acc v).flags u = ⟨true, false, true⟩ := by
        by_cases hg : ((acc.flags v).enabled && !(acc.flags v).didStart)
            = true
        · rw [startStep_eq_pos defs acc v hg]
          simp only
          rw [setFlags_other _ _ _ _ (fun he => hv he.symm)]
          exact record_runActs acc.flags _ u (hs v) hf
        · rw [startStep_eq_neg defs acc v hg]
          exact hf
      exact ih (startStep defs acc v) hu' hf'

/- ### Plugin table lookup lemmas -/

/-- Modelled from the spec's words (for comparison with the code's
`getPluginByTypeName` over `addPlugins`): the most recently registered
plugin instance whose concrete type name equals the given string, or
absent when no registration used that name — "last registration with
the same type name wins". -/
def lastRegistered (l : List (String × Plugin)) (n : String) :
    Option Plugin :=
  match l with
  | [] => none
  | p :: rest =>
    match lastRegistered rest n with
    | some q => some q
    | none => if p.1 == n then some p.2 else none

theorem find_plugin_cons_pos (q : String × Plugin)
    (l : List (String × Plugin)) (n : String) (h : (q.1 == n) = true) :
    ((q :: l).find? (fun p => p.1 == n)) = some q :=
  List.find?_cons_of_pos l h

theorem find_plugin_cons_neg (q : String × Plugin)
    (l : List (String × Plugin)) (n : String) (h : (q.1 == n) = false) :
    ((q :: l).find? (fun p => p.1 == n)) = l.find? (fun p => p.1 == n) :=
  List.find?_cons_of_neg l (by simp [h])

theorem find_mapSet_same_exists (ps : List (String × Plugin))
    (k : String) (v : Plugin) (h : ps.any (fun p => p.1 == k) = true) :
    ((ps.map (fun p => if p.1 == k then (k, v) else p)).find?
      (fun p => p.1 == k)) = some (k, v) := by
  induction ps with
  | nil => simp at h
  | cons p ps ih =>
    by_cases hp : (p.1 == k) = true
    · simp only [List.map_cons, hp, if_true]
      exact find_plugin_cons_pos (k, v) _ k (beq_self_eq_true k)
    · simp only [List.map_cons, hp, Bool.false_eq_true, if_false]
      rw [find_plugin_cons_neg p _ k (Bool.eq_false_iff.mpr hp)]
      refine ih ?_
      simp only [List.any_cons, hp, Bool.false_or] at h
      exact h

theorem find_append_single_same (ps : List (String × Plugin))
    (k : String) (v : Plugin)
    (h : ps.any (fun p => p.1 == k) = false) :
    ((ps ++ [(k, v)]).find? (fun p => p.1 == k)) = some (k, v) := by
  induction ps with
  | nil =>
    simp only [List.nil_append]
    exact find_plugin_cons_pos (k, v) _ k (beq_self_eq_true k)
  | cons p ps ih =>
    simp only [List.any_cons, Bool.or_eq_false_iff] at h
    rw [List.cons_append, find_plugin_cons_neg p _ k h.1]
    exact ih h.2

theorem find_mapSet_other_map (ps : List (String × Plugin))
    (k : String) (v : Plugin) (n : String) (hn : ¬ n = k) :
    ((ps.map (fun p => if p.1 == k then (k, v) else p)).find?
        (fun p => p.1 == n)) =
      ps.find? (fun p => p.1 == n) := by
  have hkn : (k == n) = false := beq_eq_false_iff_ne.mpr (Ne.symm hn)
  induction ps with
  | nil => rfl
  | cons p ps ih =>
    by_cases hp : (p.1 == k) = true
    · have hpk : p.1 = k := by simpa using hp
      have h2 : (p.1 == n) = false := by rw [hpk]; exact hkn
      simp only [List.map_cons, hp, if_true]
      rw [find_plugin_cons_neg (k, v) _ n hkn, find_plugin_cons_neg p _ n h2]
      exact ih
    · simp only [List.map_cons, hp, Bool.false_eq_true, if_false]
      by_cases hpn : (p.1 == n) = true
      · rw [find_plugin_cons_pos p _ n hpn, find_plugin_cons_pos p _ n hpn]
      · rw [find_plugin_cons_neg p _ n (Bool.eq_false_iff.mpr hpn),
          find_plugin_cons_neg p _ n (Bool.eq_false_iff.mpr hpn)]
        exact ih

theorem find_append_single_other (ps : List (String × Plugin))
    (k : String) (v : Plugin) (n : String) (hn : ¬ n = k) :
    ((ps ++ [(k, v)]).find? (fun p => p.1 == n)) =
      ps.find? (fun p => p.1 == n) := by
  have hkn : (k == n) = false := beq_eq_false_iff_ne.mpr (Ne.symm hn)
  induction ps with
  | nil =>
    simp only [List.nil_append]
    rw [find_plugin_cons_neg (k, v) _ n hkn]
  | cons p ps ih =>
    by_cases hpn : (p.1 == n) = true
    · rw [List.cons_append, find_plugin_cons_pos p _ n hpn,
        find_plugin_cons_pos p _ n hpn]
    · rw [List.cons_append,
        find_plugin_cons_neg p _ n (Bool.eq_false_iff.mpr hpn),
        find_plugin_cons_neg p _ n (Bool.eq_false_iff.mpr hpn)]
      exact ih

/-- A `Map.set` followed by a `Map.get`: the fresh value under its
key, everything else untouched. -/
theorem getPluginByTypeName_mapSet (ps : List (String × Plugin))
    (k : String) (v : Plugin) (n : String) :
    getPluginByTypeName (mapSet ps k v) n =
      if n == k then some v else getPluginByTypeName ps n := by
  unfold getPluginByTypeName mapSet
  by_cases hn : n = k
  · subst hn
    simp only [beq_self_eq_true, if_true]
    by_cases h : ps.any (fun p => p.1 == n) = true
    · rw [if_pos h, find_mapSet_same_exists ps n v h]
      rfl
    · rw [if_neg h,
        find_append_single_same ps n v (Bool.eq_false_iff.mpr h)]
      rfl
  · have hbeq : (n == k) = false := beq_eq_false_iff_ne.mpr hn
    simp only [hbeq, Bool.false_eq_true, if_false]
    by_cases h : ps.any (fun p => p.1 == k) = true
    · rw [if_pos h, find_mapSet_other_map ps k v n hn]
    · rw [if_neg h, find_append_single_other ps k v n hn]

theorem getPluginByTypeName_addPlugins (ps : List (String × Plugin))
    (l : List (String × Plugin)) (n : String) :
    getPluginByTypeName (addPlugins ps l) n =
      match lastRegistered l n with
      | some q => some q
      | none => getPluginByTypeName ps n := by
  induction l generalizing ps with
  | nil => rfl
  | cons p l ih =>
    have hstep : addPlugins ps (p :: l) = addPlugins (mapSet ps p.1 p.2) l :=
      rfl
    rw [hstep, ih (mapSet ps p.1 p.2)]
    cases hlr : lastRegistered l n with
    | some q => simp [lastRegistered, hlr]
    | none =>
      simp only [lastRegistered, hlr]
      rw [getPluginByTypeName_mapSet ps p.1 p.2 n]
      by_cases hp : p.1 = n
      · subst hp
        simp
      · have h1 : (n == p.1) = false := beq_eq_false_iff_ne.mpr (Ne.symm hp)
        have h2 : (p.1 == n) = false := beq_eq_false_iff_ne.mpr hp
        simp [h1, h2]

/- ### Concrete configurations used by the witnesses -/

/-- A parent entity (uuid 1) with one nested child entity (uuid 2). -/
def demoObj : Obj := .node 1 "parent" true [.node 2 "child" true []]

/-- Flags where the parent is already started and dead, the child
started and alive. -/
def demoFlags : Nat → EFlags := fun u =>
  if u = 1 then ⟨true, true, true⟩ else ⟨true, true, false⟩

def demoWorld : World :=
  { roots := [demoObj]
    table := [1, 2]
    flags := demoFlags
    defs := fun _ => EntDef.empty
    camera := true
    renderer := true
    plugins := [] }

/-- Flags where the parent is enabled, unstarted and already dead. -/
def w9flags : Nat → EFlags := fun u =>
  if u = 1 then ⟨true, false, true⟩ else ⟨true, false, false⟩

def w9 : World :=
  { roots := [demoObj]
    table := [1, 2]
    flags := w9flags
    defs := fun _ => EntDef.empty
    camera := true
    renderer := true
    plugins := [] }

def w4flags : Nat → EFlags := fun _ => ⟨true, false, false⟩

def w4 : World :=
  { roots := [.node 7 "e" true []]
    table := [7]
    flags := w4flags
    defs := fun _ => EntDef.empty
    camera := true
    renderer := true
    plugins := [] }

def w2 : World :=
  { roots := []
    table := []
    flags := fun _ => ⟨true, false, false⟩
    defs := fun _ => EntDef.empty
    camera := false
    renderer := true
    plugins := [] }

def w5 : World :=
  { roots := []
    table := []
    flags := fun _ => ⟨true, false, false⟩
    defs := fun _ => EntDef.empty
    camera := true
    renderer := true
    plugins := [("P", ⟨ExecType.alwaysT, false, false⟩)] }

def w7 : World :=
  { roots := []
    table := []
    flags := fun _ => ⟨true, false, false⟩
    defs := fun _ => EntDef.empty
    camera := true
    renderer := true
    plugins := [] }

def ls7 : LoopState :=
  { world := w7, animationLoopId := .someId 1, nextRafId := 2 }

/- ### Claim theorems -/

/-- Claim C1: for every scheduler tick, if an entity's `isDead` flag
is true at the start/reap-detection pass, that entity and every
descendant entity in its subtree are removed from the live-entity
table in the same reap pass of that tick — after the reap (and hence
at the end of the tick, whose later passes never touch the table),
neither the entity's id nor any descendant entity's id remains. -/
theorem claim_C1_reap_removes_subtree (w : World) (u : Nat) (o : Obj)
    (hu : u ∈ w.table) (hd : (w.flags u).isDead = true)
    (ho : findObj w.roots u = some o) :
    u ∉ (runTick w).world.table ∧
      ∀ d, d ∈ o.traverseList → d.isEntity = true →
        d.uuid ∉ (runTick w).world.table := by
  have hdel : u ∈ (startPass w.defs w.table w.flags).toDelete :=
    startFold_detect w.defs w.table ⟨w.flags, [], []⟩ u hu hd
  constructor
  · rw [runTick_table]
    exact reapPass_removes w.roots w.table _ u u hdel
      (self_mem_removeIdsFor w.roots u)
  · intro d hdo hde
    rw [runTick_table]
    exact reapPass_removes w.roots w.table _ u d.uuid hdel
      (mem_removeIdsFor w.roots u o d ho hdo hde)

theorem claim_C1_witness :
    1 ∉ (runTick demoWorld).world.table ∧
      2 ∉ (runTick demoWorld).world.table := by
  have h := claim_C1_reap_removes_subtree demoWorld 1 demoObj
    (by decide) (by decide) rfl
  refine ⟨h.1, ?_⟩
  have h2 := h.2 (.node 2 "child" true [])
    (List.Mem.tail _ (List.Mem.head _)) rfl
  exact h2

/-- Claim C2: whenever a tick's render pass runs with the camera or
the renderer unset, the tick surfaces the fault — the
`console.error('Renderer and/or camera are not initialized')`
diagnostic event appears in the tick's trace — and no render event is
emitted, so the skip is never silent. -/
theorem claim_C2_render_fault (w : World)
    (h : w.camera = false ∨ w.renderer = false) :
    Ev.renderError ∈ (runTick w).trace ∧
      Ev.render ∉ (runTick w).trace := by
  have hr : renderPass w.camera w.renderer = [Ev.renderError] := by
    rcases h with h | h <;> simp [renderPass, h]
  constructor
  · rw [runTick_trace, hr]
    exact List.mem_append_left _ (List.mem_append_left _
      (List.mem_append_left _ (List.mem_append_left _
        (List.mem_append_right _ (List.mem_singleton.mpr rfl)))))
  · rw [runTick_trace, hr]
    intro hmem
    simp only [List.mem_append] at hmem
    rcases hmem with ((((((h1 | h1) | h1) | h1) | h1) | h1) | h1)
    · rcases pluginInitPass_trace_shape _ _ h1 with ⟨nm, h2⟩
      exact Ev.noConfusion h2
    · rcases startPass_trace_shape _ _ _ _ h1 with ⟨v, h2⟩
      exact Ev.noConfusion h2
    · exact Ev.noConfusion (List.mem_singleton.mp h1)
    · rcases List.mem_map.mp h1 with ⟨p, _, h2⟩
      exact Ev.noConfusion h2
    · rcases entityPass_trace_shape _ _ _ _ _ _ h1 with ⟨v, h2⟩
      exact Ev.noConfusion h2
    · rcases entityPass_trace_shape _ _ _ _ _ _ h1 with ⟨v, h2⟩
      exact Ev.noConfusion h2
    · rcases List.mem_map.mp h1 with ⟨p, _, h2⟩
      exact Ev.noConfusion h2

theorem claim_C2_witness :
    Ev.renderError ∈ (runTick w2).trace ∧
      Ev.render ∉ (runTick w2).trace :=
  claim_C2_render_fault w2 (Or.inl rfl)

/-- Claim C3: `destroy()` makes `isDead` observably true immediately;
an entity that is dead at the top of a tick receives no `onUpdate` or
`onLateUpdate` in that tick or any later one (in particular from the
tick whose reap pass processes it onward); and a dead entity is out of
the live-entity table after at most that one further tick. -/
theorem claim_C3_destroy_lifecycle :
    (∀ (fl : Nat → EFlags) (u : Nat),
        ((runAct fl (.destroyAct u)) u).isDead = true) ∧
    (∀ (w : World) (u n : Nat), (w.flags u).isDead = true →
        Ev.entUpdate u ∉ (runTicks n w).2 ∧
          Ev.entLateUpdate u ∉ (runTicks n w).2) ∧
    (∀ (w : World) (u : Nat), (w.flags u).isDead = true →
        u ∉ (runTick w).world.table) := by
  refine ⟨?_, ?_, ?_⟩
  · intro fl u
    simp [runAct, setFlags_self, destroyFlag]
  · intro w u n h
    exact runTicks_dead_no_update n w u h
  · intro w u h
    exact runTick_dead_removed w u h

theorem claim_C3_witness :
    ((runAct demoFlags (.destroyAct 2)) 2).isDead = true ∧
      Ev.entUpdate 1 ∉ (runTicks 2 demoWorld).2 ∧
      Ev.entLateUpdate 1 ∉ (runTicks 2 demoWorld).2 ∧
      1 ∉ (runTick demoWorld).world.table := by
  have h2 := claim_C3_destroy_lifecycle.2.1 demoWorld 1 2 (by decide)
  exact ⟨claim_C3_destroy_lifecycle.1 demoFlags 2, h2.1, h2.2,
    claim_C3_destroy_lifecycle.2.2 demoWorld 1 (by decide)⟩

/-- Claim C4: over any run of the scheduler on a duplicate-free
live-entity table, `onStart` is emitted at most once per entity; it
fires only when, at the moment of the call, `enabled` is true and
`didStart` is false, and the scheduler sets `didStart` to true
immediately after; and `didStart` is never reset, so the false-to-true
transition happens exactly once. -/
theorem claim_C4_start_once :
    (∀ (w : World) (u n : Nat), w.table.Nodup →
        ((runTicks n w).2).count (Ev.entStart u) ≤ 1) ∧
    (∀ (defs : Nat → EntDef) (acc : StartRes) (u : Nat),
        (startStep defs acc u).trace ≠ acc.trace →
        (acc.flags u).enabled = true ∧ (acc.flags u).didStart = false ∧
          ((startStep defs acc u).flags u).didStart = true) ∧
    (∀ (w : World) (u : Nat), (w.flags u).didStart = true →
        (((runTick w).world.flags) u).didStart = true) := by
  refine ⟨?_, ?_, ?_⟩
  · intro w u n hN
    exact runTicks_count_start_le_one n w u hN
  · intro defs acc u h
    exact startStep_fire_guard defs acc u h
  · intro w u h
    exact runTick_didStart_mono w u h

theorem claim_C4_witness :
    ((runTicks 2 w4).2).count (Ev.entStart 7) ≤ 1 ∧
      ((w4flags 7).enabled = true ∧ (w4flags 7).didStart = false ∧
        ((startStep (fun _ => EntDef.empty)
          ⟨w4flags, [], []⟩ 7).flags 7).didStart = true) ∧
      (((runTick demoWorld).world.flags) 2).didStart = true := by
  refine ⟨claim_C4_start_once.1 w4 7 2 (by decide), ?_, ?_⟩
  · exact claim_C4_start_once.2.1 (fun _ => EntDef.empty)
      ⟨w4flags, [], []⟩ 7 (by decide)
  · exact claim_C4_start_once.2.2 demoWorld 2 (by decide)

/-- Claim C9: the start pass never consults `isDead` — an entity that
is enabled, unstarted, and already dead (and not disabled by an
earlier entity's `onStart`) still receives `onStart` and has
`didStart` set in the very tick whose reap pass removes it from the
live-entity table. -/
theorem claim_C9_start_ignores_isDead (w : World) (u : Nat)
    (hu : u ∈ w.table) (hf : w.flags u = ⟨true, false, true⟩)
    (hs : ∀ v, Act.setEnabledAct u false ∉ (w.defs v).onStartActs) :
    Ev.entStart u ∈ (runTick w).trace ∧
      (((runTick w).world.flags) u).didStart = true ∧
      u ∉ (runTick w).world.table := by
  have h := startFold_record_fires w.defs w.table ⟨w.flags, [], []⟩ u
    hu hf hs
  refine ⟨?_, ?_, ?_⟩
  · rw [runTick_trace]
    exact List.mem_append_left _ (List.mem_append_left _
      (List.mem_append_left _ (List.mem_append_left _
        (List.mem_append_left _ (List.mem_append_right _ h.1)))))
  · rw [runTick_flags]
    exact entityFold_didStart _ _ _ _ _ u
      (entityFold_didStart _ _ _ _ _ u h.2.1)
  · rw [runTick_table]
    exact reapPass_removes w.roots w.table _ u u h.2.2
      (self_mem_removeIdsFor w.roots u)

theorem claim_C9_witness :
    Ev.entStart 1 ∈ (runTick w9).trace ∧
      (((runTick w9).world.flags) 1).didStart = true ∧
      1 ∉ (runTick w9).world.table := by
  refine claim_C9_start_ignores_isDead w9 1 (by decide) (by decide) ?_
  intro v
  exact List.not_mem_nil _

/-- Claim C5, counterexample to the claim as stated: a registered
plugin with `enabled = false` still gets its `update` called by the
tick's plugin update pass (index.ts lines 73-76 have no `enabled`
guard). -/
theorem claim_C5_counterexample :
    (w5.plugins.map (fun p => p.2.enabled)) = [false] ∧
      Ev.pluginUpdate "P" ∈ (runTick w5).trace := by
  constructor
  · rfl
  · have h : (runTick w5).trace =
        [Ev.render, Ev.pluginUpdate "P", Ev.pluginLateUpdate "P"] := rfl
    rw [h]
    exact List.Mem.tail _ (List.Mem.head _)

/-- Claim C5 amended: in every tick's plugin update pass,
`update(delta, isPaused)` is called on every registered Always-plugin
regardless of its `enabled` flag (`enabled` gates only the initialize
pass), and the plugin remains in the plugin table. -/
theorem claim_C5_amended_update_unconditional (w : World)
    (p : String × Plugin) (hp : p ∈ w.plugins) :
    Ev.pluginUpdate p.1 ∈ (runTick w).trace ∧
      p.1 ∈ ((runTick w).world.plugins).map Prod.fst := by
  have hkey : p.1 ∈ ((pluginInitPass w.plugins).1).map Prod.fst := by
    rw [pluginInitPass_keys]
    exact List.mem_map_of_mem Prod.fst hp
  constructor
  · rw [runTick_trace]
    have hmem : Ev.pluginUpdate p.1 ∈
        pluginUpdatePass (pluginInitPass w.plugins).1 := by
      unfold pluginUpdatePass
      rcases List.mem_map.mp hkey with ⟨q, hq, hqe⟩
      exact List.mem_map.mpr ⟨q, hq, by rw [hqe]⟩
    exact List.mem_append_left _ (List.mem_append_left _
      (List.mem_append_left _ (List.mem_append_right _ hmem)))
  · rw [runTick_plugins]
    exact hkey

theorem claim_C5_amended_witness :
    Ev.pluginUpdate "P" ∈ (runTick w5).trace ∧
      "P" ∈ ((runTick w5).world.plugins).map Prod.fst :=
  claim_C5_amended_update_unconditional w5
    ("P", ⟨ExecType.alwaysT, false, false⟩) (by decide)

/-- Claim C7 (evaluation of the code at the failing input): with the
loop already running (`animationLoopId = 1`) and camera and renderer
set, `start()` logs the warning but then still calls
`animationLoop()`: a full tick runs (a render event is emitted) and a
fresh `requestAnimationFrame` id is stored, so the call is not a
no-op. `stop()` while stopped does warn and change nothing. -/
theorem claim_C7_redundant_start_runs_loop :
    (start ls7).2.1 = [Warn.alreadyStarted] ∧
      (start ls7).2.2 = [Ev.render] ∧
      (start ls7).1.animationLoopId = LoopId.someId 2 ∧
      (stop { ls7 with animationLoopId := .nullId }).2 =
        [Warn.notRunning] :=
  ⟨rfl, rfl, rfl, rfl⟩

/-- Claim C8: `getPluginByTypeName` over a table built by `addPlugins`
returns exactly the most recently registered plugin instance whose
concrete type name equals the string ("last registration with the
same type name wins"), and null when no registration used that name.
-/
theorem claim_C8_last_registration_wins (l : List (String × Plugin))
    (n : String) :
    getPluginByTypeName (addPlugins [] l) n = lastRegistered l n := by
  rw [getPluginByTypeName_addPlugins [] l n]
  cases hlr : lastRegistered l n <;> rfl

/-- Claim C10: `findObjectByName` and `findObjectsByName` return null
for the empty name without consulting the scene, whatever objects
(including empty-named ones) the scene contains. -/
theorem claim_C10_empty_name_null (roots : List Obj) :
    findObjectByName roots "" = none ∧
      findObjectsByName roots "" = none := by
  constructor <;> rfl

end Unithree

namespace UnithreeState

/-- Claim C6 (UnithreeState.ts revision, where the `Once` kind
exists): a `Once` plugin handed to `addPlugins` has its `run` body
invoked synchronously during the call with the current
`deltaTime`/`isPaused`; the recurring table gains exactly the
`Always` plugins of the batch, so the `Once` plugin is never inserted
and — its name being fresh — no later tick's plugin pass ever runs it.
(UnithreePlugin of this revision has no `initialize`/`dispose` hooks
at all, so it trivially never receives them.) -/
theorem claim_C6_once_plugin (st : UState) (ps : List UPlugin)
    (p : UPlugin) (hp : p ∈ ps) (ho : p.executionType = .once)
    (hnot : p ∉ st.plugins)
    (hname : ∀ q, q ∈ st.plugins ++ ps.filter isAlways →
      q.uname ≠ p.uname) :
    UEv.runCall p.uname st.deltaTime st.isPaused ∈ (addPlugins st ps).2 ∧
      (addPlugins st ps).1.plugins = st.plugins ++ ps.filter isAlways ∧
      p ∉ (addPlugins st ps).1.plugins ∧
      (∀ (d : Nat) (b : Bool),
        UEv.runCall p.uname d b ∉
          pluginRunPass ⟨(addPlugins st ps).1.plugins, d, b⟩) := by
  have hpl := addPlugins_plugins st ps
  refine ⟨addPlugins_once_run st ps p hp ho, hpl, ?_, ?_⟩
  · rw [hpl]
    intro hmem
    rcases List.mem_append.mp hmem with h1 | h1
    · exact hnot h1
    · have h2 : isAlways p = true := (List.mem_filter.mp h1).2
      simp [isAlways, ho] at h2
  · intro d b hmem
    unfold pluginRunPass at hmem
    simp only at hmem
    rcases List.mem_map.mp hmem with ⟨q, hq, hqe⟩
    have h3 : q.uname = p.uname := by
      injection hqe
    rw [hpl] at hq
    exact hname q hq h3

def st6 : UState := ⟨[], 5, true⟩

def p6 : UPlugin := ⟨"OncePlugin", .once⟩

theorem claim_C6_witness :
    UEv.runCall "OncePlugin" 5 true ∈ (addPlugins st6 [p6]).2 ∧
      p6 ∉ (addPlugins st6 [p6]).1.plugins := by
  have h := claim_C6_once_plugin st6 [p6] p6 (by decide) rfl (by decide)
    (by
      intro q hq
      simp [st6, p6, isAlways] at hq)
  exact ⟨h.1, h.2.2.1⟩

end UnithreeState


